import Mathlib

/-
Shallow embedding of the redshift-data-warehouse application
(src/app: models.py, create_tables.py, setup.py, teardown.py, __main__.py).

External boundaries (psycopg2, boto3, pickle, the AWS control plane) are
modelled as "world" parameters scripting the outcome of each external call;
the Lean definitions mirror the Python control flow over those outcomes.
Python `while` loops are embedded as structural recursion on an explicit
fuel argument equal to the number of loop iterations still permitted by the
loop guard (`fuel = retries - attempt + 1`), so that the guard arithmetic of
the source is preserved exactly.  Python `int` values that the source
compares with `<=` are embedded as `Int`.
-/

namespace RedshiftDW

/-! ## models.py -/

/-- `RedshiftConfig` dataclass from models.py: connection parameters for the
warehouse.  `redshift_port` defaults to 5439 in the source. -/
structure RedshiftConfig where
  username : String
  password : String
  redshift_endpoint : String
  db_name : String
  redshift_port : Int := 5439
deriving DecidableEq, Repr

/-! ## create_tables.py: test_connection

The prober's world scripts, for each 1-based attempt number, whether the
`psycopg2.connect` call of that attempt succeeds (`true`) or raises
`psycopg2.OperationalError` (`false`).  The embedding returns the number of
connection attempts made and whether the terminal error was re-raised to the
caller (`true` = the function raised, `false` = it returned normally). -/

/-- Body of the `while attempt <= retries` loop of `test_connection`.
`fuel = (retries - attempt + 1).toNat` counts the iterations still allowed
by the guard; `fuel = 0` means the guard `attempt <= retries` is false and
the loop exits (the function returns normally having made no further
attempt).  On a failed attempt the source increments `attempt` and re-raises
only when the incremented value exceeds `retries`, i.e. when no fuel
remains. -/
def probeGo (w : Int → Bool) : Nat → Int → Nat × Bool
  | 0, _ => (0, false)
  | fuel + 1, attempt =>
    if w attempt then
      (1, false)
    else
      match fuel with
      | 0 => (1, true)
      | f + 1 =>
        let r := probeGo w (f + 1) (attempt + 1)
        (r.1 + 1, r.2)

/-- `test_connection(config, retries, delay)`: starts at `attempt = 1`, so the
guard admits `retries.toNat` iterations.  `delay` only feeds `time.sleep` and
is omitted.  Result: (number of connection attempts made, raised?). -/
def test_connection (w : Int → Bool) (retries : Int) : Nat × Bool :=
  probeGo w retries.toNat 1

/-! ## create_tables.py: run_queries -/

/-- Outcome of one `cur.execute` / fetch / `conn.commit` block for a given
statement and attempt: success (with `cur.description` present or not),
a `psycopg2.Error` (caught by the per-statement handler), or an exception
outside `psycopg2.Error` (e.g. `TypeError`, `KeyboardInterrupt`), which the
per-statement `except psycopg2.Error` clause does not catch. -/
inductive ExecOutcome where
  | ok (hasResultSet : Bool)
  | dbErr
  | otherErr
deriving DecidableEq, Repr

/-- Shape of an outcome, forgetting whether a result set was present. -/
def ExecOutcome.shape : ExecOutcome → Nat
  | .ok _ => 0
  | .dbErr => 1
  | .otherErr => 2

/-- World for one `run_queries` invocation: whether the initial
`psycopg2.connect` succeeds, and the outcome of executing statement `i`
(0-based position in the batch) on its `a`-th attempt (1-based). -/
structure QWorld where
  connectOk : Bool
  exec : Nat → Int → ExecOutcome

/-- Observable events of a `run_queries` run, in program order. -/
inductive QEvent where
  | connected
  | connectFailed
  | attemptExec (i : Nat) (a : Int)
  | fetchedRows (i : Nat)
  | committed (i : Nat)
  | gaveUp (i : Nat)
  | closedConn
deriving DecidableEq, Repr

/-- Result of the per-statement retry loop: committed successfully, skipped
after exhausting retries (or a non-positive retry budget), or aborted by an
exception the handler does not catch. -/
inductive StmtRes where
  | success
  | skipped
  | raised
deriving DecidableEq, Repr

/-- Events of the `if cur.description is not None` block: rows are fetched
and logged only when a result set is present. -/
def rowEvents (i : Nat) : Bool → List QEvent
  | true => [QEvent.fetchedRows i]
  | false => []

/-- One iteration of the per-statement retry loop, given the outcome `o` of
this attempt's execute/fetch/commit block, the remaining fuel after this
attempt, and the (pure) result `r` of re-entering the loop at the next
attempt.  `r` is consulted only in the branch in which the source actually
loops again, i.e. on `psycopg2.Error` with the guard `attempt + 1 <= retries`
(equivalently: fuel remaining) still true. -/
def stmtStep (i : Nat) (attempt : Int) (o : ExecOutcome) (fuel : Nat)
    (r : List QEvent × StmtRes) : List QEvent × StmtRes :=
  match o with
  | .ok hasResultSet =>
    (QEvent.attemptExec i attempt ::
      rowEvents i hasResultSet ++ [QEvent.committed i], .success)
  | .dbErr =>
    match fuel with
    | 0 => ([QEvent.attemptExec i attempt, QEvent.gaveUp i], .skipped)
    | _ + 1 => (QEvent.attemptExec i attempt :: r.1, r.2)
  | .otherErr => ([QEvent.attemptExec i attempt], .raised)

/-- Body of the `while attempt <= retries and not success` loop for one
statement.  `fuel = (retries - attempt + 1).toNat` as in `probeGo`; `fuel = 0`
means the guard fails and the statement is left unexecuted.  On
`psycopg2.Error` the source increments `attempt` and retries only while the
guard still holds, otherwise logs "Moving to next query" and falls through;
an exception outside `psycopg2.Error` propagates out of the loop. -/
def stmtGo (w : QWorld) (i : Nat) : Nat → Int → List QEvent × StmtRes
  | 0, _ => ([], .skipped)
  | fuel + 1, attempt =>
    stmtStep i attempt (w.exec i attempt) fuel (stmtGo w i fuel (attempt + 1))

/-- Per-statement retry loop entered at `attempt = 1`. -/
def stmtLoop (w : QWorld) (i : Nat) (retries : Int) : List QEvent × StmtRes :=
  stmtGo w i retries.toNat 1

/-- The `for query in queries` loop: statements are attempted in order
starting at position `i0`; a `StmtRes.raised` statement aborts the loop with
the exception propagating (second component `true`). -/
def runStmts (w : QWorld) (retries : Int) : Nat → List String → List QEvent × Bool
  | _, [] => ([], false)
  | i0, _q :: rest =>
    let s := stmtLoop w i0 retries
    match s.2 with
    | .raised => (s.1, true)
    | _ =>
      let r := runStmts w retries (i0 + 1) rest
      (s.1 ++ r.1, r.2)

/-- `run_queries(queries, config, query_type, retries, delay)`.  The outer
`try` covers connect, the statement loop and the closes; its
`except psycopg2.Error` logs "Could not connect" once and returns.  A failed
connect therefore yields the single `connectFailed` report.  The closes run
only on the fall-through path after the loop; an exception escaping the
per-statement handler leaves the function without reaching them (second
component `true` = an exception propagates to the caller). -/
def run_queries (w : QWorld) (queries : List String) (retries : Int) :
    List QEvent × Bool :=
  if w.connectOk then
    let r := runStmts w retries 0 queries
    if r.2 then (QEvent.connected :: r.1, true)
    else (QEvent.connected :: r.1 ++ [QEvent.closedConn], false)
  else ([QEvent.connectFailed], false)

/-- Number of execution attempts recorded for statement `i` in a trace. -/
def attemptCount (i : Nat) (evs : List QEvent) : Nat :=
  (evs.filter fun e =>
    match e with
    | QEvent.attemptExec i' _ => i' == i
    | _ => false).length

/-- Statement position an event belongs to, if any. -/
def evStmt : QEvent → Option Nat
  | QEvent.attemptExec i _ => some i
  | QEvent.fetchedRows i => some i
  | QEvent.committed i => some i
  | QEvent.gaveUp i => some i
  | _ => none

/-- Trace order: whenever both events belong to statements, the earlier
event's statement position is at most the later one's.  A trace that is
`List.Pairwise stmtOrdered` never interleaves statements; in particular a
commit of statement `i` precedes every execution attempt of any later
statement. -/
def stmtOrdered (e e' : QEvent) : Prop :=
  ∀ i i', evStmt e = some i → evStmt e' = some i' → i ≤ i'

/-! ## teardown.py

Each `delete_*` function wraps its whole body in `try ... except Exception`,
logging a warning on failure; consequently no exception escapes any of the
four functions.  The world gives, per step, `none` for a successful body or
`some msg` for a body that raises an exception (of class `Exception`, the
class the handler catches).  The second component of each result is the
exception propagating out of the function, which is always `none` precisely
because of the handler. -/

/-- The four deletion steps, in the order `teardown` runs them. -/
inductive TStep where
  | cluster
  | subnetGroup
  | iamRole
  | securityGroup
deriving DecidableEq, Repr

/-- Observable events of a teardown run. -/
inductive TEvent where
  | attempted (s : TStep)
  | stepOk (s : TStep)
  | warned (s : TStep)
  | doneMsg
deriving DecidableEq, Repr

/-- `delete_redshift_cluster`: submit delete and wait; any exception is caught
and logged as a warning, never re-raised. -/
def delete_redshift_cluster (outcome : Option String) : List TEvent × Option String :=
  match outcome with
  | none => ([TEvent.attempted TStep.cluster, TEvent.stepOk TStep.cluster], none)
  | some _ => ([TEvent.attempted TStep.cluster, TEvent.warned TStep.cluster], none)

/-- `delete_subnet_group`, same catch-all structure. -/
def delete_subnet_group (outcome : Option String) : List TEvent × Option String :=
  match outcome with
  | none => ([TEvent.attempted TStep.subnetGroup, TEvent.stepOk TStep.subnetGroup], none)
  | some _ => ([TEvent.attempted TStep.subnetGroup, TEvent.warned TStep.subnetGroup], none)

/-- `delete_iam_role` (detach policy then delete role), same structure. -/
def delete_iam_role (outcome : Option String) : List TEvent × Option String :=
  match outcome with
  | none => ([TEvent.attempted TStep.iamRole, TEvent.stepOk TStep.iamRole], none)
  | some _ => ([TEvent.attempted TStep.iamRole, TEvent.warned TStep.iamRole], none)

/-- `delete_security_group` (look up by name, delete each match), same
structure. -/
def delete_security_group (outcome : Option String) : List TEvent × Option String :=
  match outcome with
  | none => ([TEvent.attempted TStep.securityGroup, TEvent.stepOk TStep.securityGroup], none)
  | some _ => ([TEvent.attempted TStep.securityGroup, TEvent.warned TStep.securityGroup], none)

/-- Python sequencing of two statements: if the first raises, the second
never runs and the exception propagates. -/
def seqT : List TEvent × Option String → List TEvent × Option String →
    List TEvent × Option String
  | (evs, none), (evs2, r) => (evs ++ evs2, r)
  | (evs, some e), _ => (evs, some e)

/-- `teardown()`: runs the four deletion steps in order, then logs the final
"Teardown complete" message. -/
def teardown (w : TStep → Option String) : List TEvent × Option String :=
  seqT (delete_redshift_cluster (w TStep.cluster))
    (seqT (delete_subnet_group (w TStep.subnetGroup))
      (seqT (delete_iam_role (w TStep.iamRole))
        (seqT (delete_security_group (w TStep.securityGroup))
          ([TEvent.doneMsg], none))))

/-- Step recorded by an `attempted` event, if any. -/
def attemptedStep : TEvent → Option TStep
  | TEvent.attempted s => some s
  | _ => none

/-! ## __main__.py: main

The four mutually exclusive command-line operations.  The world of a `main`
run is whether `setup_output.pkl` exists.  The result is the list of actions
performed and the process exit code (`sys.exit(1)` = 1, normal return = 0). -/

/-- The four mutually exclusive CLI flags. -/
inductive CliOp where
  | setup
  | etl
  | teardown
  | sample
deriving DecidableEq, Repr

/-- Actions observable from a `main` run. -/
inductive MEvent where
  | ranSetup
  | ranEtl
  | ranSampleQueries
  | ranTeardown
  | deletedPickle
  | warnedPickleMissing
  | errorMissingPickle
deriving DecidableEq, Repr

/-- `run_teardown()`: always runs `teardown()`, then deletes the pickle file
if it exists, otherwise logs a "nothing to delete" warning. -/
def run_teardown (pickleExists : Bool) : List MEvent :=
  MEvent.ranTeardown ::
    (if pickleExists then [MEvent.deletedPickle] else [MEvent.warnedPickleMissing])

/-- `main()`: dispatch on the selected flag.  Only the `--etl` and `--sample`
branches guard on the pickle file existing; `--teardown` runs
unconditionally. -/
def main (op : CliOp) (pickleExists : Bool) : List MEvent × Nat :=
  match op with
  | CliOp.setup => ([MEvent.ranSetup], 0)
  | CliOp.etl =>
    if pickleExists then ([MEvent.ranEtl], 0)
    else ([MEvent.errorMissingPickle], 1)
  | CliOp.teardown => (run_teardown pickleExists, 0)
  | CliOp.sample =>
    if pickleExists then ([MEvent.ranSampleQueries], 0)
    else ([MEvent.errorMissingPickle], 1)

/-! ## setup.py

The provisioner's world scripts the control-plane calls.  Errors of the
opaque RPC boundary are exception messages; `launch_redshift_cluster`
additionally raises `ResourceWarning` itself when the default security group
lookup returns no groups. -/

/-- Configuration constants read from `dwh.cfg` that flow into the returned
session state. -/
structure SetupCfg where
  master_username : String
  master_password : String
  db_name : String
  region : String

/-- Control-plane world for one `setup()` run.  `create_cluster_and_wait`
bundles the `create_cluster` request, the `cluster_available` waiter and the
endpoint lookup of `launch_redshift_cluster`, taking the IAM role ARN and
the `VpcSecurityGroupIds` list that the source passes. -/
structure SetupWorld where
  create_iam_role : Except String String
  create_security_group : Except String (String × String)
  create_subnet_group : String → Except String Unit
  describe_default_security_groups : Except String (List String)
  create_cluster_and_wait : String → List String → Except String String

/-- The provisioning steps in program order. -/
inductive SEvent where
  | roleStep
  | ingressStep
  | subnetStep
  | settleDelay
  | launchStep
  | assembled
deriving DecidableEq, Repr

/-- Exceptions escaping `setup`: either an error of the RPC boundary, or the
`ResourceWarning` that `launch_redshift_cluster` raises itself. -/
inductive SetupErr where
  | raised (msg : String)
  | resourceWarning (msg : String)
deriving DecidableEq, Repr

/-- `launch_redshift_cluster(role_arn, security_group_id)`: look up the
default security group of the configured VPC; if the lookup returns no
groups, raise `ResourceWarning`; otherwise submit the cluster creation with
`[security_group_id, default_sg_id]`, wait for availability and return the
endpoint. -/
def launch_redshift_cluster (w : SetupWorld) (role_arn security_group_id : String) :
    List SEvent × Except SetupErr String :=
  match w.describe_default_security_groups with
  | Except.error e => ([SEvent.launchStep], Except.error (SetupErr.raised e))
  | Except.ok [] =>
    ([SEvent.launchStep],
      Except.error (SetupErr.resourceWarning "Default Security Group not found in the VPC."))
  | Except.ok (default_sg_id :: _) =>
    match w.create_cluster_and_wait role_arn [security_group_id, default_sg_id] with
    | Except.error e => ([SEvent.launchStep], Except.error (SetupErr.raised e))
    | Except.ok endpoint => ([SEvent.launchStep], Except.ok endpoint)

/-- `setup()`: create IAM role, create security group (with its ingress
rule), create subnet group, sleep 15 seconds, launch the cluster, then
assemble the session triple.  There is no exception handling at this layer:
any error propagates immediately and later steps never run.  The source
constructs `RedshiftConfig` without a port argument, so the dataclass
default 5439 is used. -/
def setup (cfg : SetupCfg) (w : SetupWorld) :
    List SEvent × Except SetupErr (RedshiftConfig × String × String) :=
  match w.create_iam_role with
  | Except.error e => ([SEvent.roleStep], Except.error (SetupErr.raised e))
  | Except.ok role_arn =>
    match w.create_security_group with
    | Except.error e =>
      ([SEvent.roleStep, SEvent.ingressStep], Except.error (SetupErr.raised e))
    | Except.ok (vpc_id, security_group_id) =>
      match w.create_subnet_group vpc_id with
      | Except.error e =>
        ([SEvent.roleStep, SEvent.ingressStep, SEvent.subnetStep],
          Except.error (SetupErr.raised e))
      | Except.ok _ =>
        let l := launch_redshift_cluster w role_arn security_group_id
        match l.2 with
        | Except.error e =>
          ([SEvent.roleStep, SEvent.ingressStep, SEvent.subnetStep,
            SEvent.settleDelay] ++ l.1, Except.error e)
        | Except.ok endpoint =>
          ([SEvent.roleStep, SEvent.ingressStep, SEvent.subnetStep,
            SEvent.settleDelay] ++ l.1 ++ [SEvent.assembled],
            Except.ok
              ({ username := cfg.master_username, password := cfg.master_password,
                 redshift_endpoint := endpoint, db_name := cfg.db_name,
                 redshift_port := 5439 }, role_arn, cfg.region))

/-! ## __main__.py: the pickle persistence boundary

`run_and_pickle_setup` writes the tuple `(redshift_config, role_arn, region)`
with `pickle.dump`; `load_pickled_setup` reads it back with `pickle.load`
and destructures it in the same order.  The opaque pickle byte format is
modelled as a flat sequence of atoms, one per field, in the order the tuple
lays them out. -/

/-- An atom of the serialized session record. -/
inductive PickleAtom where
  | strAtom (s : String)
  | intAtom (n : Int)
deriving DecidableEq, Repr

/-- The file content `run_and_pickle_setup` writes for a session triple. -/
def run_and_pickle_setup (s : RedshiftConfig × String × String) : List PickleAtom :=
  [PickleAtom.strAtom s.1.username, PickleAtom.strAtom s.1.password,
   PickleAtom.strAtom s.1.redshift_endpoint, PickleAtom.strAtom s.1.db_name,
   PickleAtom.intAtom s.1.redshift_port, PickleAtom.strAtom s.2.1,
   PickleAtom.strAtom s.2.2]

/-- `load_pickled_setup`: deserialize the session triple, failing on any
malformed record. -/
def load_pickled_setup : List PickleAtom → Option (RedshiftConfig × String × String)
  | [PickleAtom.strAtom u, PickleAtom.strAtom p, PickleAtom.strAtom e,
     PickleAtom.strAtom d, PickleAtom.intAtom port, PickleAtom.strAtom arn,
     PickleAtom.strAtom region] =>
    some (⟨u, p, e, d, port⟩, arn, region)
  | _ => none

/-! ## Concrete example worlds, used to evaluate the embeddings -/

/-- A batch world in which statement 1 always fails with a database error
and every other statement succeeds immediately without a result set. -/
def exampleBatchWorld : QWorld :=
  ⟨true, fun i _ => if i = 1 then ExecOutcome.dbErr else ExecOutcome.ok false⟩

/-- A batch world in which every execution raises outside `psycopg2.Error`. -/
def exampleOtherErrWorld : QWorld :=
  ⟨true, fun _ _ => ExecOutcome.otherErr⟩

/-- A batch world in which opening the connection fails. -/
def exampleNoConnWorld : QWorld :=
  ⟨false, fun _ _ => ExecOutcome.ok false⟩

/-- Example configuration constants for the provisioner. -/
def exampleSetupCfg : SetupCfg :=
  ⟨"awsuser", "passw0rd", "dev", "us-west-2"⟩

/-- A provisioning world in which every control-plane call succeeds. -/
def exampleSetupWorld : SetupWorld where
  create_iam_role := Except.ok "arn:role"
  create_security_group := Except.ok ("vpc-1", "sg-1")
  create_subnet_group := fun _ => Except.ok ()
  describe_default_security_groups := Except.ok ["sg-default"]
  create_cluster_and_wait := fun _ _ => Except.ok "endpoint.example"

/-! ## Lemmas about the connection prober -/

/-- Against an always-failing target the prober spends all its fuel, one
attempt per unit, and re-raises at the end. -/
theorem probeGo_allFail (w : Int → Bool) (hw : ∀ a, w a = false) :
    ∀ fuel : Nat, 1 ≤ fuel → ∀ attempt : Int,
      probeGo w fuel attempt = (fuel, true) := by
  intro fuel
  induction fuel with
  | zero => intro h; omega
  | succ f ih =>
    intro _ attempt
    match f with
    | 0 => rw [probeGo.eq_def]; simp [hw]
    | f' + 1 =>
      rw [probeGo.eq_def]
      have := ih (by omega) (attempt + 1)
      simp [hw, this]

/-- Against a target failing on attempts `attempt .. attempt+k-1` and
succeeding on attempt `attempt+k`, the prober makes `k+1` attempts and
returns normally, provided the fuel exceeds `k`. -/
theorem probeGo_failThenOk (w : Int → Bool) :
    ∀ (k : Nat) (fuel : Nat) (attempt : Int),
      (∀ a : Int, attempt ≤ a → a < attempt + k → w a = false) →
      w (attempt + k) = true → k < fuel →
      probeGo w fuel attempt = (k + 1, false) := by
  intro k
  induction k with
  | zero =>
    intro fuel attempt _ hs hf
    match fuel with
    | f + 1 =>
      have : w attempt = true := by simpa using hs
      rw [probeGo.eq_def]
      simp [this]
  | succ k ih =>
    intro fuel attempt hfail hs hf
    match fuel with
    | (f' + 1) + 1 =>
      have h0 : w attempt = false := hfail attempt le_rfl (by omega)
      have hrec := ih (f' + 1) (attempt + 1)
        (fun a ha hb => hfail a (by omega) (by push_cast at hb ⊢; omega))
        (by have : attempt + 1 + (k : Int) = attempt + (k + 1 : Nat) := by
              push_cast; ring
            rw [this]; exact hs)
        (by omega)
      rw [probeGo.eq_def]
      simp [h0, hrec]

/-! ## Lemmas about the statement executor -/

theorem attemptCount_nil (i : Nat) : attemptCount i [] = 0 := rfl

theorem attemptCount_append (i : Nat) (l1 l2 : List QEvent) :
    attemptCount i (l1 ++ l2) = attemptCount i l1 + attemptCount i l2 := by
  simp [attemptCount, List.filter_append]

theorem attemptCount_cons_other (i : Nat) (e : QEvent) (l : List QEvent)
    (h : ∀ i' a, e ≠ QEvent.attemptExec i' a) :
    attemptCount i (e :: l) = attemptCount i l := by
  cases e with
  | attemptExec i' a => exact absurd rfl (h i' a)
  | connected => simp [attemptCount]
  | connectFailed => simp [attemptCount]
  | fetchedRows i' => simp [attemptCount]
  | committed i' => simp [attemptCount]
  | gaveUp i' => simp [attemptCount]
  | closedConn => simp [attemptCount]

theorem attemptCount_eq_zero {i : Nat} {evs : List QEvent}
    (h : ∀ e ∈ evs, evStmt e ≠ some i) : attemptCount i evs = 0 := by
  rw [attemptCount, List.length_eq_zero, List.filter_eq_nil_iff]
  intro e he
  cases e with
  | attemptExec i' a =>
    simp only [beq_iff_eq]
    intro hc
    exact h _ he (by simp [evStmt, hc])
  | connected => simp
  | connectFailed => simp
  | fetchedRows i' => simp
  | committed i' => simp
  | gaveUp i' => simp
  | closedConn => simp

/-- Every event the per-statement loop produces belongs to that statement. -/
theorem stmtGo_pure (w : QWorld) (i : Nat) :
    ∀ (fuel : Nat) (attempt : Int), ∀ e ∈ (stmtGo w i fuel attempt).1,
      evStmt e = some i := by
  intro fuel
  induction fuel with
  | zero => intro attempt e he; simp [stmtGo] at he
  | succ f ih =>
    intro attempt e he
    rw [stmtGo] at he
    cases hx : w.exec i attempt with
    | ok hasResultSet =>
      rw [hx] at he
      cases hasResultSet with
      | false =>
        simp [stmtStep, rowEvents] at he
        rcases he with rfl | rfl <;> rfl
      | true =>
        simp [stmtStep, rowEvents] at he
        rcases he with rfl | rfl | rfl <;> rfl
    | dbErr =>
      rw [hx] at he
      match f with
      | 0 =>
        simp [stmtStep] at he
        rcases he with rfl | rfl <;> rfl
      | f' + 1 =>
        simp only [stmtStep, List.mem_cons] at he
        rcases he with rfl | he
        · rfl
        · exact ih (attempt + 1) e he
    | otherErr =>
      rw [hx] at he
      simp [stmtStep] at he
      subst he
      rfl

/-- A statement whose execution raises `psycopg2.Error` on every attempt is
retried exactly as long as fuel remains, then skipped with the give-up log;
it is never committed and never aborts the loop. -/
theorem stmtGo_allFail (w : QWorld) (j : Nat)
    (hfail : ∀ a, w.exec j a = ExecOutcome.dbErr) :
    ∀ (fuel : Nat) (attempt : Int), 1 ≤ fuel →
      (stmtGo w j fuel attempt).2 = StmtRes.skipped ∧
      attemptCount j (stmtGo w j fuel attempt).1 = fuel ∧
      QEvent.gaveUp j ∈ (stmtGo w j fuel attempt).1 ∧
      QEvent.committed j ∉ (stmtGo w j fuel attempt).1 := by
  intro fuel
  induction fuel with
  | zero => intro attempt h; omega
  | succ f ih =>
    intro attempt _
    rw [stmtGo, hfail attempt]
    match f with
    | 0 => simp [stmtStep, attemptCount]
    | f' + 1 =>
      have hr := ih (attempt + 1) (by omega)
      simp only [stmtStep]
      refine ⟨hr.1, ?_, ?_, ?_⟩
      · simp only [attemptCount, List.filter_cons]
        simp only [beq_self_eq_true, if_pos]
        have h2 := hr.2.1
        simp only [attemptCount] at h2
        simp [h2]
      · exact List.mem_cons_of_mem _ hr.2.2.1
      · intro hmem
        rcases List.mem_cons.mp hmem with h | h
        · exact QEvent.noConfusion h
        · exact hr.2.2.2 h

/-- A statement whose first execution attempt succeeds (with or without a
result set) commits on that attempt: one execution attempt, a commit event,
and a success result. -/
theorem stmtGo_okFirst (w : QWorld) (i : Nat) (hasResultSet : Bool)
    (hok : w.exec i 1 = ExecOutcome.ok hasResultSet) :
    ∀ fuel : Nat, 1 ≤ fuel →
      (stmtGo w i fuel 1).2 = StmtRes.success ∧
      attemptCount i (stmtGo w i fuel 1).1 = 1 ∧
      QEvent.committed i ∈ (stmtGo w i fuel 1).1 := by
  intro fuel hf
  match fuel with
  | f + 1 =>
    rw [stmtGo, hok]
    cases hasResultSet <;>
      simp [stmtStep, rowEvents, attemptCount, List.filter_cons, List.filter_append]

/-- A statement is committed exactly when its retry loop ends in success. -/
theorem stmtGo_commit_iff (w : QWorld) (i : Nat) :
    ∀ (fuel : Nat) (attempt : Int),
      (QEvent.committed i ∈ (stmtGo w i fuel attempt).1 ↔
        (stmtGo w i fuel attempt).2 = StmtRes.success) := by
  intro fuel
  induction fuel with
  | zero => intro attempt; simp [stmtGo]
  | succ f ih =>
    intro attempt
    rw [stmtGo]
    cases hx : w.exec i attempt with
    | ok hasResultSet => cases hasResultSet <;> simp [stmtStep, rowEvents]
    | dbErr =>
      match f with
      | 0 => simp [stmtStep]
      | f' + 1 =>
        simp only [stmtStep, List.mem_cons]
        simp [ih (attempt + 1)]
    | otherErr => simp [stmtStep]

/-- If no attempt of statement `i` raises outside `psycopg2.Error`, its retry
loop never aborts the batch. -/
theorem stmtGo_noRaise (w : QWorld) (i : Nat)
    (h : ∀ a, w.exec i a ≠ ExecOutcome.otherErr) :
    ∀ (fuel : Nat) (attempt : Int), (stmtGo w i fuel attempt).2 ≠ StmtRes.raised := by
  intro fuel
  induction fuel with
  | zero => intro attempt; simp [stmtGo]
  | succ f ih =>
    intro attempt
    rw [stmtGo]
    cases hx : w.exec i attempt with
    | ok hasResultSet => simp [stmtStep]
    | dbErr =>
      match f with
      | 0 => simp [stmtStep]
      | f' + 1 =>
        simp only [stmtStep]
        exact ih (attempt + 1)
    | otherErr => exact absurd hx (h attempt)

/-- The per-statement loop only consults the world at its own statement. -/
theorem stmtGo_congr (w w' : QWorld) (i : Nat)
    (h : ∀ a, w.exec i a = w'.exec i a) :
    ∀ (fuel : Nat) (attempt : Int),
      stmtGo w i fuel attempt = stmtGo w' i fuel attempt := by
  intro fuel
  induction fuel with
  | zero => intro attempt; rfl
  | succ f ih =>
    intro attempt
    rw [stmtGo, stmtGo, h attempt, ih (attempt + 1)]

/-- The result of the per-statement loop depends only on the shapes of the
execution outcomes, not on whether a result set was present. -/
theorem stmtGo_shapeRes (w w' : QWorld) (i : Nat)
    (h : ∀ a, (w.exec i a).shape = (w'.exec i a).shape) :
    ∀ (fuel : Nat) (attempt : Int),
      (stmtGo w i fuel attempt).2 = (stmtGo w' i fuel attempt).2 := by
  intro fuel
  induction fuel with
  | zero => intro attempt; rfl
  | succ f ih =>
    intro attempt
    rw [stmtGo, stmtGo]
    have hs := h attempt
    cases hx : w.exec i attempt with
    | ok b =>
      cases hx' : w'.exec i attempt with
      | ok b' => simp [stmtStep]
      | dbErr => rw [hx, hx'] at hs; simp [ExecOutcome.shape] at hs
      | otherErr => rw [hx, hx'] at hs; simp [ExecOutcome.shape] at hs
    | dbErr =>
      cases hx' : w'.exec i attempt with
      | ok b' => rw [hx, hx'] at hs; simp [ExecOutcome.shape] at hs
      | dbErr =>
        simp only [stmtStep]
        cases f with
        | zero => rfl
        | succ f' => exact ih (attempt + 1)
      | otherErr => rw [hx, hx'] at hs; simp [ExecOutcome.shape] at hs
    | otherErr =>
      cases hx' : w'.exec i attempt with
      | ok b' => rw [hx, hx'] at hs; simp [ExecOutcome.shape] at hs
      | dbErr => rw [hx, hx'] at hs; simp [ExecOutcome.shape] at hs
      | otherErr => simp [stmtStep]

/-- Every event of the statement loop starting at position `i0` belongs to a
statement at position `>= i0`. -/
theorem runStmts_ge (w : QWorld) (r : Int) :
    ∀ (qs : List String) (i0 : Nat), ∀ e ∈ (runStmts w r i0 qs).1,
      ∃ i, i0 ≤ i ∧ evStmt e = some i := by
  intro qs
  induction qs with
  | nil => intro i0 e he; simp [runStmts] at he
  | cons q rest ih =>
    intro i0 e he
    rw [runStmts] at he
    cases hres : (stmtLoop w i0 r).2 with
    | raised =>
      rw [hres] at he
      exact ⟨i0, le_rfl, stmtGo_pure w i0 _ _ e he⟩
    | success =>
      rw [hres] at he
      rcases List.mem_append.mp he with h | h
      · exact ⟨i0, le_rfl, stmtGo_pure w i0 _ _ e h⟩
      · obtain ⟨i, hi, hev⟩ := ih (i0 + 1) e h
        exact ⟨i, by omega, hev⟩
    | skipped =>
      rw [hres] at he
      rcases List.mem_append.mp he with h | h
      · exact ⟨i0, le_rfl, stmtGo_pure w i0 _ _ e h⟩
      · obtain ⟨i, hi, hev⟩ := ih (i0 + 1) e h
        exact ⟨i, by omega, hev⟩

/-- A statement's loop records no execution attempts for other statements. -/
theorem attemptCount_stmtGo_ne (w : QWorld) (i j : Nat) (hne : i ≠ j)
    (fuel : Nat) (attempt : Int) :
    attemptCount i (stmtGo w j fuel attempt).1 = 0 :=
  attemptCount_eq_zero fun e he => by
    rw [stmtGo_pure w j fuel attempt e he]
    intro hc
    injection hc with hc
    exact hne hc.symm

/-- Statements before position `i0` record no execution attempts in the loop
that starts at `i0`. -/
theorem attemptCount_runStmts_lt (w : QWorld) (r : Int) (qs : List String)
    (i0 i : Nat) (h : i < i0) : attemptCount i (runStmts w r i0 qs).1 = 0 :=
  attemptCount_eq_zero fun e he => by
    obtain ⟨i', hi', hev⟩ := runStmts_ge w r qs i0 e he
    rw [hev]
    intro hc
    injection hc with hc
    omega

/-- A statement's loop never commits another statement. -/
theorem committed_not_mem_stmtGo_ne (w : QWorld) (i j : Nat) (hne : j ≠ i)
    (fuel : Nat) (attempt : Int) :
    QEvent.committed j ∉ (stmtGo w i fuel attempt).1 := fun hmem => by
  have h := stmtGo_pure w i fuel attempt _ hmem
  simp [evStmt] at h
  exact hne h

/-- Statements before position `i0` are never committed by the loop starting
at `i0`. -/
theorem committed_not_mem_runStmts_lt (w : QWorld) (r : Int) (qs : List String)
    (i0 j : Nat) (h : j < i0) :
    QEvent.committed j ∉ (runStmts w r i0 qs).1 := fun hmem => by
  obtain ⟨i', hi', hev⟩ := runStmts_ge w r qs i0 _ hmem
  simp [evStmt] at hev
  omega

/-- Main induction for claim C1: in a batch where statement `j` always fails
with a database error and every other statement succeeds on its first
attempt, the loop starting at `i0` never aborts, makes exactly `retries`
attempts for `j` (when `j` is in range), gives up on `j` without committing
it, and commits every other statement in range with a single attempt. -/
theorem runStmts_C1 (w : QWorld) (r : Int) (j : Nat)
    (hfail : ∀ a, w.exec j a = ExecOutcome.dbErr)
    (hok : ∀ i, i ≠ j → ∃ b, w.exec i 1 = ExecOutcome.ok b)
    (hr : 1 ≤ r) :
    ∀ (qs : List String) (i0 : Nat),
      (runStmts w r i0 qs).2 = false ∧
      attemptCount j (runStmts w r i0 qs).1 =
        (if i0 ≤ j ∧ j < i0 + qs.length then r.toNat else 0) ∧
      ((i0 ≤ j ∧ j < i0 + qs.length) → QEvent.gaveUp j ∈ (runStmts w r i0 qs).1) ∧
      QEvent.committed j ∉ (runStmts w r i0 qs).1 ∧
      (∀ i, i0 ≤ i → i < i0 + qs.length → i ≠ j →
        QEvent.committed i ∈ (runStmts w r i0 qs).1 ∧
        attemptCount i (runStmts w r i0 qs).1 = 1) := by
  intro qs
  induction qs with
  | nil =>
    intro i0
    refine ⟨rfl, ?_, ?_, ?_, ?_⟩
    · simp only [runStmts, attemptCount_nil]
      have hneg : ¬(i0 ≤ j ∧ j < i0 + ([] : List String).length) := by
        rintro ⟨ha, hb⟩
        simp at hb
        omega
      rw [if_neg hneg]
    · intro hrange
      simp at hrange
      omega
    · simp [runStmts]
    · intro i h1 h2
      simp at h2
      omega
  | cons q rest ih =>
    intro i0
    by_cases hij : i0 = j
    · subst hij
      have hseg := stmtGo_allFail w i0 hfail r.toNat 1 (by omega)
      have hrec := ih (i0 + 1)
      have hres := hseg.1
      simp only [runStmts, stmtLoop, hres]
      refine ⟨hrec.1, ?_, ?_, ?_, ?_⟩
      · rw [attemptCount_append, hseg.2.1, hrec.2.1]
        simp only [List.length_cons]
        rw [if_neg (show ¬(i0 + 1 ≤ i0 ∧ i0 < i0 + 1 + rest.length) by
              rintro ⟨hc, _⟩; omega),
          if_pos (show i0 ≤ i0 ∧ i0 < i0 + (rest.length + 1) from ⟨le_rfl, by omega⟩)]
        omega
      · intro _
        exact List.mem_append.mpr (Or.inl hseg.2.2.1)
      · intro hmem
        rcases List.mem_append.mp hmem with h | h
        · exact hseg.2.2.2 h
        · exact hrec.2.2.2.1 h
      · intro i h1 h2 hne
        have hi : i0 + 1 ≤ i := by omega
        have hrt := hrec.2.2.2.2 i hi (by simp at h2 ⊢; omega) hne
        refine ⟨List.mem_append.mpr (Or.inr hrt.1), ?_⟩
        rw [attemptCount_append, attemptCount_stmtGo_ne w i i0 hne, hrt.2]
    · obtain ⟨b, hb⟩ := hok i0 hij
      have hseg := stmtGo_okFirst w i0 b hb r.toNat (by omega)
      have hrec := ih (i0 + 1)
      have hres := hseg.1
      simp only [runStmts, stmtLoop, hres]
      refine ⟨hrec.1, ?_, ?_, ?_, ?_⟩
      · rw [attemptCount_append, attemptCount_stmtGo_ne w j i0 (fun h => hij h.symm),
          hrec.2.1]
        simp only [List.length_cons]
        have hiff : (i0 + 1 ≤ j ∧ j < i0 + 1 + rest.length) ↔
            (i0 ≤ j ∧ j < i0 + (rest.length + 1)) := by
          constructor
          · rintro ⟨ha, hb⟩
            exact ⟨by omega, by omega⟩
          · rintro ⟨ha, hb⟩
            have hne' : i0 ≠ j := hij
            exact ⟨by omega, by omega⟩
        simp only [hiff]
        simp
      · intro hrange
        refine List.mem_append.mpr (Or.inr (hrec.2.2.1 ?_))
        simp at hrange ⊢
        omega
      · intro hmem
        rcases List.mem_append.mp hmem with h | h
        · exact committed_not_mem_stmtGo_ne w i0 j (fun h' => hij h'.symm) _ _ h
        · exact hrec.2.2.2.1 h
      · intro i h1 h2 hne
        by_cases hi : i = i0
        · subst hi
          refine ⟨List.mem_append.mpr (Or.inl hseg.2.2), ?_⟩
          rw [attemptCount_append, hseg.2.1,
            attemptCount_runStmts_lt w r rest (i + 1) i (by omega)]
        · have hrt := hrec.2.2.2.2 i (by omega) (by simp at h2 ⊢; omega) hne
          refine ⟨List.mem_append.mpr (Or.inr hrt.1), ?_⟩
          rw [attemptCount_append, attemptCount_stmtGo_ne w i i0 hi, hrt.2]

/-- If no statement's execution ever raises outside `psycopg2.Error`, the
batch loop runs to completion: no exception propagates. -/
theorem runStmts_noRaise (w : QWorld) (r : Int)
    (h : ∀ i a, w.exec i a ≠ ExecOutcome.otherErr) :
    ∀ (qs : List String) (i0 : Nat), (runStmts w r i0 qs).2 = false := by
  intro qs
  induction qs with
  | nil => intro i0; rfl
  | cons q rest ih =>
    intro i0
    cases hres : (stmtLoop w i0 r).2 with
    | raised => exact absurd hres (stmtGo_noRaise w i0 (h i0) r.toNat 1)
    | success => simp only [runStmts, stmtLoop] at hres ⊢; rw [hres]; exact ih (i0 + 1)
    | skipped => simp only [runStmts, stmtLoop] at hres ⊢; rw [hres]; exact ih (i0 + 1)

/-- Within one statement's loop all events share one statement position, so
the trace is trivially ordered. -/
theorem stmtGo_ordered (w : QWorld) (i : Nat) (fuel : Nat) (attempt : Int) :
    List.Pairwise stmtOrdered (stmtGo w i fuel attempt).1 := by
  refine List.pairwise_of_forall_mem_list ?_
  intro e he e' he' a b ha hb
  rw [stmtGo_pure w i fuel attempt e he] at ha
  rw [stmtGo_pure w i fuel attempt e' he'] at hb
  injection ha with ha
  injection hb with hb
  omega

/-- The batch trace is ordered: statements never interleave, and every event
of an earlier statement (its commit included) precedes every event of a
later one. -/
theorem runStmts_ordered (w : QWorld) (r : Int) :
    ∀ (qs : List String) (i0 : Nat),
      List.Pairwise stmtOrdered (runStmts w r i0 qs).1 := by
  intro qs
  induction qs with
  | nil => intro i0; simp [runStmts]
  | cons q rest ih =>
    intro i0
    have hcross : ∀ e ∈ (stmtLoop w i0 r).1, ∀ e' ∈ (runStmts w r (i0 + 1) rest).1,
        stmtOrdered e e' := by
      intro e he e' he' a b ha hb
      rw [stmtGo_pure w i0 _ _ e he] at ha
      obtain ⟨i', hi', hev⟩ := runStmts_ge w r rest (i0 + 1) e' he'
      rw [hev] at hb
      injection ha with ha
      injection hb with hb
      omega
    cases hres : (stmtLoop w i0 r).2 with
    | raised =>
      simp only [runStmts, stmtLoop] at hres ⊢
      rw [hres]
      exact stmtGo_ordered w i0 _ _
    | success =>
      simp only [runStmts, stmtLoop] at hres hcross ⊢
      rw [hres]
      exact List.pairwise_append.mpr ⟨stmtGo_ordered w i0 _ _, ih (i0 + 1), hcross⟩
    | skipped =>
      simp only [runStmts, stmtLoop] at hres hcross ⊢
      rw [hres]
      exact List.pairwise_append.mpr ⟨stmtGo_ordered w i0 _ _, ih (i0 + 1), hcross⟩

/-- The full `run_queries` trace is ordered; the connect and close events
carry no statement position and never violate the order. -/
theorem run_queries_ordered (w : QWorld) (qs : List String) (r : Int) :
    List.Pairwise stmtOrdered (run_queries w qs r).1 := by
  simp only [run_queries]
  cases hc : w.connectOk with
  | false => simp
  | true =>
    have hbody := runStmts_ordered w r qs 0
    cases hflag : (runStmts w r 0 qs).2 with
    | true =>
      simp only [if_true]
      refine List.Pairwise.cons ?_ hbody
      intro e' _ a b ha hb
      simp [evStmt] at ha
    | false =>
      simp only [if_false]
      refine List.Pairwise.cons ?_ ?_
      · intro e' _ a b ha hb
        simp [evStmt] at ha
      · refine List.pairwise_append.mpr ⟨hbody, List.pairwise_singleton _ _, ?_⟩
        intro e _ e' he' a b ha hb
        rw [List.mem_singleton.mp he'] at hb
        simp [evStmt] at hb

/-- A statement is committed in the `run_queries` trace exactly when the
connection opened and its commit appears in the batch loop's trace. -/
theorem committed_mem_run_queries (w : QWorld) (qs : List String) (r : Int) (jj : Nat) :
    QEvent.committed jj ∈ (run_queries w qs r).1 ↔
      (w.connectOk = true ∧ QEvent.committed jj ∈ (runStmts w r 0 qs).1) := by
  simp only [run_queries]
  cases hc : w.connectOk with
  | false => simp
  | true =>
    cases hflag : (runStmts w r 0 qs).2 with
    | true => simp
    | false => simp

/-- The batch flag and the set of committed statements depend only on the
shapes of the execution outcomes: whether a successful statement produced a
result set is irrelevant. -/
theorem runStmts_shape (w w' : QWorld) (r : Int)
    (hsh : ∀ i a, (w.exec i a).shape = (w'.exec i a).shape) :
    ∀ (qs : List String) (i0 : Nat),
      (runStmts w r i0 qs).2 = (runStmts w' r i0 qs).2 ∧
      ∀ jj, (QEvent.committed jj ∈ (runStmts w r i0 qs).1 ↔
        QEvent.committed jj ∈ (runStmts w' r i0 qs).1) := by
  intro qs
  induction qs with
  | nil => intro i0; exact ⟨rfl, fun jj => Iff.rfl⟩
  | cons q rest ih =>
    intro i0
    have hres2 := stmtGo_shapeRes w w' i0 (hsh i0) r.toNat 1
    have hmemseg : ∀ jj, (QEvent.committed jj ∈ (stmtGo w i0 r.toNat 1).1 ↔
        QEvent.committed jj ∈ (stmtGo w' i0 r.toNat 1).1) := by
      intro jj
      by_cases hjj : jj = i0
      · subst hjj
        rw [stmtGo_commit_iff, stmtGo_commit_iff, hres2]
      · constructor
        · intro h
          exact absurd h (committed_not_mem_stmtGo_ne w i0 jj hjj _ _)
        · intro h
          exact absurd h (committed_not_mem_stmtGo_ne w' i0 jj hjj _ _)
    cases hres : (stmtGo w i0 r.toNat 1).2 with
    | raised =>
      simp only [runStmts, stmtLoop]
      rw [hres] at hres2
      rw [hres, ← hres2]
      exact ⟨rfl, hmemseg⟩
    | success =>
      simp only [runStmts, stmtLoop]
      rw [hres] at hres2
      rw [hres, ← hres2]
      refine ⟨(ih (i0 + 1)).1, ?_⟩
      intro jj
      simp only [List.mem_append]
      rw [hmemseg jj, (ih (i0 + 1)).2 jj]
    | skipped =>
      simp only [runStmts, stmtLoop]
      rw [hres] at hres2
      rw [hres, ← hres2]
      refine ⟨(ih (i0 + 1)).1, ?_⟩
      intro jj
      simp only [List.mem_append]
      rw [hmemseg jj, (ih (i0 + 1)).2 jj]

/-- Whether statement `i` is committed depends only on the outcomes of
statements at positions up to `i`: a later statement's failure (of any kind)
cannot undo or affect an earlier statement's commit. -/
theorem runStmts_agree (w w' : QWorld) (r : Int) (i : Nat)
    (hag : ∀ i', i' ≤ i → ∀ a, w.exec i' a = w'.exec i' a) :
    ∀ (qs : List String) (i0 : Nat),
      (QEvent.committed i ∈ (runStmts w r i0 qs).1 ↔
        QEvent.committed i ∈ (runStmts w' r i0 qs).1) := by
  intro qs
  induction qs with
  | nil => intro i0; exact Iff.rfl
  | cons q rest ih =>
    intro i0
    by_cases hle : i0 ≤ i
    · have heq : stmtGo w i0 r.toNat 1 = stmtGo w' i0 r.toNat 1 :=
        stmtGo_congr w w' i0 (hag i0 hle) r.toNat 1
      cases hres : (stmtGo w i0 r.toNat 1).2 with
      | raised =>
        simp only [runStmts, stmtLoop]
        rw [hres, ← heq, hres]
      | success =>
        simp only [runStmts, stmtLoop]
        rw [hres, ← heq, hres]
        simp only [List.mem_append]
        rw [ih (i0 + 1)]
      | skipped =>
        simp only [runStmts, stmtLoop]
        rw [hres, ← heq, hres]
        simp only [List.mem_append]
        rw [ih (i0 + 1)]
    · constructor
      · intro h
        exact absurd h (committed_not_mem_runStmts_lt w r _ i0 i (by omega))
      · intro h
        exact absurd h (committed_not_mem_runStmts_lt w' r _ i0 i (by omega))

end RedshiftDW

namespace RedshiftDW

/-! ## Claim theorems for the connection prober -/

/-- Claim C2: for every retry budget `N ≥ 1`, `test_connection` against an
always-failing target makes exactly N connection attempts and then raises
the connectivity error; against a target that fails `k < N` times and then
succeeds, it makes exactly `k+1` attempts and returns success. -/
theorem claim_C2 (w1 w2 : Int → Bool) (N : Int) (k : Nat)
    (h1 : ∀ a, w1 a = false) (hN : 1 ≤ N)
    (h2fail : ∀ a : Int, 1 ≤ a → a ≤ (k : Int) → w2 a = false)
    (h2succ : w2 ((k : Int) + 1) = true)
    (hk : (k : Int) < N) :
    test_connection w1 N = (N.toNat, true) ∧
      test_connection w2 N = (k + 1, false) := by
  constructor
  · exact probeGo_allFail w1 h1 N.toNat (by omega) 1
  · exact probeGo_failThenOk w2 k N.toNat 1
      (fun a ha hb => h2fail a ha (by omega))
      (by have : (1 : Int) + (k : Int) = (k : Int) + 1 := by ring
          rw [this]; exact h2succ)
      (by omega)

/-- Witness for C2 at concrete inputs: an always-failing world with budget 5,
and a world failing twice then succeeding on attempt 3 with budget 5. -/
theorem claim_C2_witness :
    test_connection (fun _ => false) 5 = (5, true) ∧
      test_connection (fun a => decide (a = 3)) 5 = (3, false) := by
  have h := claim_C2 (fun _ => false) (fun a => decide (a = 3)) 5 2
    (fun _ => rfl) (by norm_num)
    (by intro a h1 h2
        simp only [decide_eq_false_iff_not]
        omega)
    (by norm_num) (by norm_num)
  exact ⟨h.1, h.2⟩

/-- Claim C10: with a retry budget `retries ≤ 0` the prober never enters its
loop: it makes zero connection attempts and returns normally, as if the
probe had succeeded. -/
theorem claim_C10 (w : Int → Bool) (retries : Int) (h : retries ≤ 0) :
    test_connection w retries = (0, false) := by
  have h0 : retries.toNat = 0 := by omega
  rw [test_connection, h0, probeGo.eq_def]

/-- Witness for C10: a world that would fail every attempt, with budget 0. -/
theorem claim_C10_witness :
    test_connection (fun _ => false) 0 = (0, false) :=
  claim_C10 (fun _ => false) 0 le_rfl

/-! ## Claim theorems for the statement executor -/

/-- Claim C1: in a batch where statement `j` fails with a database error on
every attempt and every other statement succeeds on its first attempt, the
executor makes exactly `retries` execution attempts for `j`, gives up on it
without raising and without committing it, and commits every other statement
(in one attempt each); the batch is never aborted and the function returns
normally. -/
theorem claim_C1 (w : QWorld) (queries : List String) (j : Nat) (retries : Int)
    (hconn : w.connectOk = true)
    (hj : j < queries.length)
    (hfail : ∀ a, w.exec j a = ExecOutcome.dbErr)
    (hok : ∀ i, i ≠ j → ∃ b, w.exec i 1 = ExecOutcome.ok b)
    (hr : 1 ≤ retries) :
    (run_queries w queries retries).2 = false ∧
    attemptCount j (run_queries w queries retries).1 = retries.toNat ∧
    QEvent.gaveUp j ∈ (run_queries w queries retries).1 ∧
    QEvent.committed j ∉ (run_queries w queries retries).1 ∧
    (∀ i, i < queries.length → i ≠ j →
      QEvent.committed i ∈ (run_queries w queries retries).1 ∧
      attemptCount i (run_queries w queries retries).1 = 1) := by
  have hmain := runStmts_C1 w retries j hfail hok hr queries 0
  have hflag : (runStmts w retries 0 queries).2 = false := hmain.1
  have htrace : run_queries w queries retries =
      (QEvent.connected :: (runStmts w retries 0 queries).1 ++ [QEvent.closedConn],
        false) := by
    simp [run_queries, hconn, hflag]
  have hlist : (run_queries w queries retries).1 =
      QEvent.connected :: (runStmts w retries 0 queries).1 ++ [QEvent.closedConn] := by
    rw [htrace]
  have hflag' : (run_queries w queries retries).2 = false := by rw [htrace]
  refine ⟨hflag', ?_, ?_, ?_, ?_⟩
  · rw [hlist, attemptCount_append,
      attemptCount_cons_other _ _ _ (fun i' a => by simp)]
    have h0 : attemptCount j [QEvent.closedConn] = 0 := rfl
    rw [h0, Nat.add_zero, hmain.2.1, if_pos ⟨Nat.zero_le _, by omega⟩]
  · rw [hlist]
    exact List.mem_append.mpr
      (Or.inl (List.mem_cons_of_mem _ (hmain.2.2.1 ⟨Nat.zero_le _, by omega⟩)))
  · rw [hlist]
    intro hmem
    rcases List.mem_append.mp hmem with h | h
    · rcases List.mem_cons.mp h with h' | h'
      · exact QEvent.noConfusion h'
      · exact hmain.2.2.2.1 h'
    · simp at h
  · intro i hi hne
    have hrt := hmain.2.2.2.2 i (Nat.zero_le _) (by omega) hne
    constructor
    · rw [hlist]
      exact List.mem_append.mpr (Or.inl (List.mem_cons_of_mem _ hrt.1))
    · rw [hlist, attemptCount_append,
        attemptCount_cons_other _ _ _ (fun i' a => by simp)]
      have h0 : attemptCount i [QEvent.closedConn] = 0 := rfl
      rw [h0, Nat.add_zero, hrt.2]

/-- Witness for C1: a three-statement batch whose middle statement always
fails, with a retry budget of 3. -/
theorem claim_C1_witness :
    (run_queries exampleBatchWorld ["q0", "q1", "q2"] 3).2 = false ∧
    attemptCount 1 (run_queries exampleBatchWorld ["q0", "q1", "q2"] 3).1 = 3 ∧
    QEvent.gaveUp 1 ∈ (run_queries exampleBatchWorld ["q0", "q1", "q2"] 3).1 ∧
    QEvent.committed 0 ∈ (run_queries exampleBatchWorld ["q0", "q1", "q2"] 3).1 := by
  have h := claim_C1 exampleBatchWorld ["q0", "q1", "q2"] 1 3 rfl (by decide)
    (fun a => rfl)
    (fun i hne => ⟨false, by simp [exampleBatchWorld, hne]⟩)
    (by norm_num)
  exact ⟨h.1, h.2.1, h.2.2.1, (h.2.2.2.2 0 (by decide) (by decide)).1⟩

/-- Counterexample for C4 as stated: with the connection opened, a statement
whose execution raises outside `psycopg2.Error` (here: on its first attempt)
exits `run_queries` without the connection ever being closed — there is no
scoped acquisition (`with`/`finally`) in the source. -/
theorem claim_C4_counterexample :
    exampleOtherErrWorld.connectOk = true ∧
    (run_queries exampleOtherErrWorld ["CREATE TABLE t (i INT)"] 3).2 = true ∧
    QEvent.closedConn ∉ (run_queries exampleOtherErrWorld ["CREATE TABLE t (i INT)"] 3).1 := by
  decide

/-- Claim C4, amended: if the batch connection opens and no statement's
execution raises outside `psycopg2.Error`, the connection is closed and the
function returns normally — statement-level database errors never prevent
the close, but the close is reached by fall-through, not by scoped
acquisition. -/
theorem claim_C4_amended (w : QWorld) (queries : List String) (retries : Int)
    (hconn : w.connectOk = true)
    (hno : ∀ i a, w.exec i a ≠ ExecOutcome.otherErr) :
    QEvent.closedConn ∈ (run_queries w queries retries).1 ∧
    (run_queries w queries retries).2 = false := by
  have hflag := runStmts_noRaise w retries hno queries 0
  have htrace : run_queries w queries retries =
      (QEvent.connected :: (runStmts w retries 0 queries).1 ++ [QEvent.closedConn],
        false) := by
    simp [run_queries, hconn, hflag]
  have hlist : (run_queries w queries retries).1 =
      QEvent.connected :: (runStmts w retries 0 queries).1 ++ [QEvent.closedConn] := by
    rw [htrace]
  constructor
  · rw [hlist]
    simp
  · rw [htrace]

/-- Witness for the amended C4: a batch whose only statement fails every
attempt with a database error still ends with the connection closed. -/
theorem claim_C4_witness :
    QEvent.closedConn ∈ (run_queries exampleBatchWorld ["a"] 1).1 ∧
    (run_queries exampleBatchWorld ["a"] 1).2 = false :=
  claim_C4_amended exampleBatchWorld ["a"] 1 rfl (fun i a => by
    simp only [exampleBatchWorld]
    split <;> simp)

/-- Claim C7: (1) the batch trace never interleaves statements — each
commit precedes every event (in particular every execution attempt) of every
later statement; (2) the batch flag and the set of committed statements are
unchanged when result-set presence changes (success with and without rows
are the same); (3) whether statement `i` is committed depends only on the
outcomes of statements up to `i`, so no later statement's failure can undo
an earlier statement's commit. -/
theorem claim_C7 (w w' w2 : QWorld) (queries : List String) (retries : Int) (i : Nat)
    (hconn' : w.connectOk = w'.connectOk)
    (hsh : ∀ i' a, (w.exec i' a).shape = (w'.exec i' a).shape)
    (hconn2 : w.connectOk = w2.connectOk)
    (hag : ∀ i', i' ≤ i → ∀ a, w.exec i' a = w2.exec i' a) :
    List.Pairwise stmtOrdered (run_queries w queries retries).1 ∧
    (∀ jj, QEvent.committed jj ∈ (run_queries w queries retries).1 ↔
      QEvent.committed jj ∈ (run_queries w' queries retries).1) ∧
    (QEvent.committed i ∈ (run_queries w queries retries).1 ↔
      QEvent.committed i ∈ (run_queries w2 queries retries).1) := by
  refine ⟨run_queries_ordered w queries retries, ?_, ?_⟩
  · intro jj
    rw [committed_mem_run_queries, committed_mem_run_queries, hconn',
      (runStmts_shape w w' retries hsh queries 0).2 jj]
  · rw [committed_mem_run_queries, committed_mem_run_queries, hconn2,
      runStmts_agree w w2 retries i hag queries 0]

/-- Witness for C7 with all three worlds equal to the example batch world. -/
theorem claim_C7_witness :
    List.Pairwise stmtOrdered (run_queries exampleBatchWorld ["q0", "q1"] 2).1 ∧
    (QEvent.committed 1 ∈ (run_queries exampleBatchWorld ["q0", "q1"] 2).1 ↔
      QEvent.committed 1 ∈ (run_queries exampleBatchWorld ["q0", "q1"] 2).1) ∧
    (QEvent.committed 0 ∈ (run_queries exampleBatchWorld ["q0", "q1"] 2).1 ↔
      QEvent.committed 0 ∈ (run_queries exampleBatchWorld ["q0", "q1"] 2).1) := by
  have h := claim_C7 exampleBatchWorld exampleBatchWorld exampleBatchWorld
    ["q0", "q1"] 2 0 rfl (fun _ _ => rfl) rfl (fun _ _ _ => rfl)
  exact ⟨h.1, h.2.1 1, h.2.2⟩

/-- Claim C9: when opening the batch connection fails with a database error,
`run_queries` reports the failure exactly once, attempts no statement, makes
no further connection attempt, and returns normally. -/
theorem claim_C9 (w : QWorld) (queries : List String) (retries : Int)
    (hconn : w.connectOk = false) :
    run_queries w queries retries = ([QEvent.connectFailed], false) ∧
    (∀ i, attemptCount i (run_queries w queries retries).1 = 0) := by
  have htrace : run_queries w queries retries = ([QEvent.connectFailed], false) := by
    simp [run_queries, hconn]
  exact ⟨htrace, fun i => by rw [htrace]; rfl⟩

/-- Witness for C9: a world whose connection attempt fails. -/
theorem claim_C9_witness :
    run_queries exampleNoConnWorld ["a"] 3 = ([QEvent.connectFailed], false) :=
  (claim_C9 exampleNoConnWorld ["a"] 3 rfl).1

/-! ## Claim theorems for the decommissioner -/

/-- Claim C3: when every one of the four deletion steps throws, all four are
still attempted exactly once each, in the order cluster, subnet group, IAM
role, security group; every failure is logged as a warning; and no exception
propagates out of `teardown`. -/
theorem claim_C3 (w : TStep → Option String) (h : ∀ s, w s ≠ none) :
    (teardown w).2 = none ∧
    (teardown w).1.filterMap attemptedStep =
      [TStep.cluster, TStep.subnetGroup, TStep.iamRole, TStep.securityGroup] ∧
    (∀ s, TEvent.warned s ∈ (teardown w).1) := by
  obtain ⟨e1, h1⟩ := Option.ne_none_iff_exists'.mp (h TStep.cluster)
  obtain ⟨e2, h2⟩ := Option.ne_none_iff_exists'.mp (h TStep.subnetGroup)
  obtain ⟨e3, h3⟩ := Option.ne_none_iff_exists'.mp (h TStep.iamRole)
  obtain ⟨e4, h4⟩ := Option.ne_none_iff_exists'.mp (h TStep.securityGroup)
  have ht : teardown w =
      ([TEvent.attempted TStep.cluster, TEvent.warned TStep.cluster,
        TEvent.attempted TStep.subnetGroup, TEvent.warned TStep.subnetGroup,
        TEvent.attempted TStep.iamRole, TEvent.warned TStep.iamRole,
        TEvent.attempted TStep.securityGroup, TEvent.warned TStep.securityGroup,
        TEvent.doneMsg], none) := by
    simp [teardown, delete_redshift_cluster, delete_subnet_group, delete_iam_role,
      delete_security_group, seqT, h1, h2, h3, h4]
  rw [ht]
  refine ⟨rfl, by simp [attemptedStep], ?_⟩
  intro s
  cases s <;> simp

/-- Witness for C3: every step throws the same exception. -/
theorem claim_C3_witness :
    (teardown fun _ => some "boom").2 = none ∧
    (teardown fun _ => some "boom").1.filterMap attemptedStep =
      [TStep.cluster, TStep.subnetGroup, TStep.iamRole, TStep.securityGroup] := by
  have h := claim_C3 (fun _ => some "boom") (fun s => by simp)
  exact ⟨h.1, h.2.1⟩

/-! ## Claim theorems for the command surface -/

/-- Counterexample for C5 as stated: with the session record file missing,
the `--teardown` operation does not fail — it performs the teardown and
exits with code 0 (merely logging a warning about the missing pickle). -/
theorem claim_C5_counterexample :
    (main CliOp.teardown false).2 = 0 ∧
    MEvent.ranTeardown ∈ (main CliOp.teardown false).1 := by
  decide

/-- Claim C5, amended: only `--etl` and `--sample` require the persisted
session record — with the record missing each exits with code 1 without
performing its work; `--teardown` runs the teardown regardless, warning
about the missing record and exiting 0, and `--setup` never consults the
record. -/
theorem claim_C5_amended :
    main CliOp.etl false = ([MEvent.errorMissingPickle], 1) ∧
    main CliOp.sample false = ([MEvent.errorMissingPickle], 1) ∧
    main CliOp.teardown false =
      ([MEvent.ranTeardown, MEvent.warnedPickleMissing], 0) ∧
    main CliOp.setup false = ([MEvent.ranSetup], 0) := by
  decide

/-! ## Claim theorems for the provisioner -/

/-- Claim C6: `setup` performs its steps in the strict order create role,
create ingress rule (security group), create subnet group, settle delay,
launch cluster, assemble; it has no retry: the trace is always a prefix of
that order, a successful run performs exactly that order, and any failing
step makes its error propagate immediately with no later step executing —
covering each creation step's error, and at the launch step both RPC error
modes (the default-security-group lookup failing and the cluster
creation/wait failing) as well as the `ResourceWarning` raised when the
default security group lookup comes back empty. -/
theorem claim_C6 (cfg : SetupCfg) (w : SetupWorld) :
    ((∃ rest, (setup cfg w).1 ++ rest =
      [SEvent.roleStep, SEvent.ingressStep, SEvent.subnetStep, SEvent.settleDelay,
        SEvent.launchStep, SEvent.assembled]) ∧
    (∀ res, (setup cfg w).2 = Except.ok res →
      (setup cfg w).1 =
        [SEvent.roleStep, SEvent.ingressStep, SEvent.subnetStep, SEvent.settleDelay,
          SEvent.launchStep, SEvent.assembled])) ∧
    (∀ e, w.create_iam_role = Except.error e →
      setup cfg w = ([SEvent.roleStep], Except.error (SetupErr.raised e))) ∧
    (∀ arn e, w.create_iam_role = Except.ok arn →
      w.create_security_group = Except.error e →
      setup cfg w = ([SEvent.roleStep, SEvent.ingressStep],
        Except.error (SetupErr.raised e))) ∧
    (∀ arn vpc sg e, w.create_iam_role = Except.ok arn →
      w.create_security_group = Except.ok (vpc, sg) →
      w.create_subnet_group vpc = Except.error e →
      setup cfg w = ([SEvent.roleStep, SEvent.ingressStep, SEvent.subnetStep],
        Except.error (SetupErr.raised e))) ∧
    (∀ arn vpc sg e, w.create_iam_role = Except.ok arn →
      w.create_security_group = Except.ok (vpc, sg) →
      w.create_subnet_group vpc = Except.ok () →
      w.describe_default_security_groups = Except.error e →
      setup cfg w = ([SEvent.roleStep, SEvent.ingressStep, SEvent.subnetStep,
        SEvent.settleDelay, SEvent.launchStep],
        Except.error (SetupErr.raised e))) ∧
    (∀ arn vpc sg d ds e, w.create_iam_role = Except.ok arn →
      w.create_security_group = Except.ok (vpc, sg) →
      w.create_subnet_group vpc = Except.ok () →
      w.describe_default_security_groups = Except.ok (d :: ds) →
      w.create_cluster_and_wait arn [sg, d] = Except.error e →
      setup cfg w = ([SEvent.roleStep, SEvent.ingressStep, SEvent.subnetStep,
        SEvent.settleDelay, SEvent.launchStep],
        Except.error (SetupErr.raised e))) ∧
    (∀ arn vpc sg, w.create_iam_role = Except.ok arn →
      w.create_security_group = Except.ok (vpc, sg) →
      w.create_subnet_group vpc = Except.ok () →
      w.describe_default_security_groups = Except.ok [] →
      setup cfg w = ([SEvent.roleStep, SEvent.ingressStep, SEvent.subnetStep,
        SEvent.settleDelay, SEvent.launchStep],
        Except.error (SetupErr.resourceWarning
          "Default Security Group not found in the VPC."))) ∧
    (∀ arn vpc sg d ds endpoint, w.create_iam_role = Except.ok arn →
      w.create_security_group = Except.ok (vpc, sg) →
      w.create_subnet_group vpc = Except.ok () →
      w.describe_default_security_groups = Except.ok (d :: ds) →
      w.create_cluster_and_wait arn [sg, d] = Except.ok endpoint →
      setup cfg w = ([SEvent.roleStep, SEvent.ingressStep, SEvent.subnetStep,
        SEvent.settleDelay, SEvent.launchStep, SEvent.assembled],
        Except.ok
          ({ username := cfg.master_username, password := cfg.master_password,
             redshift_endpoint := endpoint, db_name := cfg.db_name,
             redshift_port := 5439 }, arn, cfg.region))) := by
  refine ⟨?_, ?_, ?_, ?_, ?_, ?_, ?_, ?_⟩
  · cases h1 : w.create_iam_role with
    | error e =>
      have hs : setup cfg w = ([SEvent.roleStep], Except.error (SetupErr.raised e)) := by
        simp [setup, h1]
      rw [hs]
      exact ⟨⟨_, rfl⟩, fun res hres => by simp at hres⟩
    | ok arn =>
      cases h2 : w.create_security_group with
      | error e =>
        have hs : setup cfg w = ([SEvent.roleStep, SEvent.ingressStep],
            Except.error (SetupErr.raised e)) := by
          simp [setup, h1, h2]
        rw [hs]
        exact ⟨⟨_, rfl⟩, fun res hres => by simp at hres⟩
      | ok p =>
        obtain ⟨vpc, sg⟩ := p
        cases h3 : w.create_subnet_group vpc with
        | error e =>
          have hs : setup cfg w =
              ([SEvent.roleStep, SEvent.ingressStep, SEvent.subnetStep],
                Except.error (SetupErr.raised e)) := by
            simp [setup, h1, h2, h3]
          rw [hs]
          exact ⟨⟨_, rfl⟩, fun res hres => by simp at hres⟩
        | ok u =>
          cases h4 : w.describe_default_security_groups with
          | error e =>
            have hs : setup cfg w =
                ([SEvent.roleStep, SEvent.ingressStep, SEvent.subnetStep,
                  SEvent.settleDelay, SEvent.launchStep],
                  Except.error (SetupErr.raised e)) := by
              simp [setup, launch_redshift_cluster, h1, h2, h3, h4]
            rw [hs]
            exact ⟨⟨_, rfl⟩, fun res hres => by simp at hres⟩
          | ok l =>
            cases l with
            | nil =>
              have hs : setup cfg w =
                  ([SEvent.roleStep, SEvent.ingressStep, SEvent.subnetStep,
                    SEvent.settleDelay, SEvent.launchStep],
                    Except.error (SetupErr.resourceWarning
                      "Default Security Group not found in the VPC.")) := by
                simp [setup, launch_redshift_cluster, h1, h2, h3, h4]
              rw [hs]
              exact ⟨⟨_, rfl⟩, fun res hres => by simp at hres⟩
            | cons d ds =>
              cases h5 : w.create_cluster_and_wait arn [sg, d] with
              | error e =>
                have hs : setup cfg w =
                    ([SEvent.roleStep, SEvent.ingressStep, SEvent.subnetStep,
                      SEvent.settleDelay, SEvent.launchStep],
                      Except.error (SetupErr.raised e)) := by
                  simp [setup, launch_redshift_cluster, h1, h2, h3, h4, h5]
                rw [hs]
                exact ⟨⟨_, rfl⟩, fun res hres => by simp at hres⟩
              | ok endpoint =>
                have hs : setup cfg w =
                    ([SEvent.roleStep, SEvent.ingressStep, SEvent.subnetStep,
                      SEvent.settleDelay, SEvent.launchStep, SEvent.assembled],
                      Except.ok
                        ({ username := cfg.master_username,
                           password := cfg.master_password,
                           redshift_endpoint := endpoint, db_name := cfg.db_name,
                           redshift_port := 5439 }, arn, cfg.region)) := by
                  simp [setup, launch_redshift_cluster, h1, h2, h3, h4, h5]
                rw [hs]
                exact ⟨⟨[], rfl⟩, fun res hres => rfl⟩
  · intro e h1
    simp [setup, h1]
  · intro arn e h1 h2
    simp [setup, h1, h2]
  · intro arn vpc sg e h1 h2 h3
    simp [setup, h1, h2, h3]
  · intro arn vpc sg e h1 h2 h3 h4
    simp [setup, launch_redshift_cluster, h1, h2, h3, h4]
  · intro arn vpc sg d ds e h1 h2 h3 h4 h5
    simp [setup, launch_redshift_cluster, h1, h2, h3, h4, h5]
  · intro arn vpc sg h1 h2 h3 h4
    simp [setup, launch_redshift_cluster, h1, h2, h3, h4]
  · intro arn vpc sg d ds endpoint h1 h2 h3 h4 h5
    simp [setup, launch_redshift_cluster, h1, h2, h3, h4, h5]

/-- Witness for C6: the all-success world yields the full ordered trace and
the assembled session triple (with the dataclass default port 5439). -/
theorem claim_C6_witness :
    setup exampleSetupCfg exampleSetupWorld =
      ([SEvent.roleStep, SEvent.ingressStep, SEvent.subnetStep, SEvent.settleDelay,
        SEvent.launchStep, SEvent.assembled],
        Except.ok
          ({ username := "awsuser", password := "passw0rd",
             redshift_endpoint := "endpoint.example", db_name := "dev",
             redshift_port := 5439 }, "arn:role", "us-west-2")) := by
  have h := claim_C6 exampleSetupCfg exampleSetupWorld
  exact h.2.2.2.2.2.2.2 "arn:role" "vpc-1" "sg-1" "sg-default" [] "endpoint.example"
    rfl rfl rfl rfl rfl

/-! ## Claim theorem for the persistence boundary -/

/-- Claim C8: writing a session triple through the pickle boundary and
reloading it reproduces identical values for every field. -/
theorem claim_C8 (s : RedshiftConfig × String × String) :
    load_pickled_setup (run_and_pickle_setup s) = some s := by
  obtain ⟨⟨u, p, e, d, port⟩, arn, region⟩ := s
  rfl

/-- Witness for C8 at a concrete session triple. -/
theorem claim_C8_witness :
    load_pickled_setup (run_and_pickle_setup
      (⟨"awsuser", "passw0rd", "endpoint.example", "dev", 5439⟩,
        "arn:role", "us-west-2")) =
      some (⟨"awsuser", "passw0rd", "endpoint.example", "dev", 5439⟩,
        "arn:role", "us-west-2") :=
  claim_C8 _

end RedshiftDW
